import Mathlib

/-!
Verification development for the EMO-Buddy browser voice-companion app
(`src/index.tsx`).  The file shallowly embeds the audio/session
orchestration core of the program — the PCM codec (`encode`, `decode`,
`createBlob`, `decodeAudioData`), the audio output scheduler
(`onmessage` modelTurn branch, `source.onended`), the voice-activity
gate (`scriptProcessor.onaudioprocess`), the barge-in stop
(`stopAllAudio`), the tool-call dispatch loop, the expression
resolution (`EmoFace` / `EmoEye` / `EmoMouth`), and the boredom
counter effects — and proves or refutes the specified properties.

Conventions: JavaScript numbers are modelled as `ℚ` (the claims under
study concern exact integer/fixed-point arithmetic, ordering and
control flow, not float rounding); machine 16-bit conversion is
modelled with explicit truncation and `% 2^16` wrap-around following
ECMAScript `ToInt16`; code that throws is modelled with
`Except`/`Option`.
-/

namespace EmoBuddy

/-! Section: PCM codec (src/index.tsx lines 24-72)

`encode` maps each byte to a character (`String.fromCharCode`) and
base64-encodes with the browser's `btoa`; `decode` is the inverse via
`atob` + `charCodeAt`.  Since bytes 0..255 round-trip through the
char-code conversion exactly, we model the pair directly as base64 of
a byte list (RFC 4648 standard alphabet with `=` padding, which is
what `btoa` produces; `atob` throws on malformed input, modelled as
`none`). -/

def b64Alphabet : List Char :=
  ['A', 'B', 'C', 'D', 'E', 'F', 'G', 'H', 'I', 'J', 'K', 'L', 'M',
   'N', 'O', 'P', 'Q', 'R', 'S', 'T', 'U', 'V', 'W', 'X', 'Y', 'Z',
   'a', 'b', 'c', 'd', 'e', 'f', 'g', 'h', 'i', 'j', 'k', 'l', 'm',
   'n', 'o', 'p', 'q', 'r', 's', 't', 'u', 'v', 'w', 'x', 'y', 'z',
   '0', '1', '2', '3', '4', '5', '6', '7', '8', '9', '+', '/']

def b64Char (n : ℕ) : Char := b64Alphabet.getD n '?'

def b64Index (c : Char) : Option ℕ := b64Alphabet.findIdx? (· = c)

/-- Base64 encoding of a byte list, three bytes to four sextets, with
`=` padding, as produced by the browser's `btoa`. -/
def btoaBytes : List ℕ → List Char
  | [] => []
  | [a] => [b64Char (a / 4), b64Char (a % 4 * 16), '=', '=']
  | [a, b] => [b64Char (a / 4), b64Char (a % 4 * 16 + b / 16), b64Char (b % 16 * 4), '=']
  | a :: b :: c :: rest =>
      b64Char (a / 4) :: b64Char (a % 4 * 16 + b / 16) ::
      b64Char (b % 16 * 4 + c / 64) :: b64Char (c % 64) :: btoaBytes rest

/-- Base64 decoding (browser `atob` + `charCodeAt` loop of `decode`,
src/index.tsx lines 33-41); malformed input (which makes `atob` throw)
yields `none`.  `=` padding is honored at the end of the input, as in
canonical base64 output produced by `btoa`. -/
def atobChars : List Char → Option (List ℕ)
  | [] => some []
  | c1 :: c2 :: c3 :: c4 :: rest => do
      let n1 ← b64Index c1
      let n2 ← b64Index c2
      if c3 = '=' then
        if c4 = '=' ∧ rest = [] then pure [n1 * 4 + n2 / 16] else none
      else do
        let n3 ← b64Index c3
        if c4 = '=' then
          if rest = [] then pure [n1 * 4 + n2 / 16, n2 % 16 * 16 + n3 / 4] else none
        else do
          let n4 ← b64Index c4
          let tl ← atobChars rest
          pure ((n1 * 4 + n2 / 16) :: (n2 % 16 * 16 + n3 / 4) :: (n3 % 4 * 64 + n4) :: tl)
  | _ => none

/-- Function `encode` (src/index.tsx lines 24-31): bytes → binary string → `btoa`. -/
def encode (bytes : List ℕ) : String := String.mk (btoaBytes bytes)

/-- Function `decode` (src/index.tsx lines 33-41): `atob` → `charCodeAt` bytes. -/
def decode (base64 : String) : Option (List ℕ) := atobChars base64.toList

/-- JavaScript truncation toward zero (`ToIntegerOrInfinity`), the
first step of the `Int16Array` element conversion `int16[i] = data[i] * 32768`. -/
def jsTrunc (q : ℚ) : ℤ := if 0 ≤ q then ⌊q⌋ else -⌊-q⌋

/-- ECMAScript `ToInt16` wrap-around: reduce an integer mod 2^16 into
[-2^15, 2^15). -/
def toInt16wrap (n : ℤ) : ℤ :=
  if 32768 ≤ n % 65536 then n % 65536 - 65536 else n % 65536

/-- The per-sample conversion of `createBlob` (src/index.tsx line 66):
`int16[i] = data[i] * 32768` on an `Int16Array`, i.e. truncate then
wrap to 16-bit signed. -/
def sampleToInt16 (x : ℚ) : ℤ := toInt16wrap (jsTrunc (x * 32768))

/-- Little-endian byte pair of a 16-bit signed value, as laid out by
`new Uint8Array(int16.buffer)` (src/index.tsx line 69). -/
def int16ToBytes (v : ℤ) : List ℕ :=
  [(v % 65536).toNat % 256, (v % 65536).toNat / 256]

/-- Little-endian byte pair back to a 16-bit signed value, as read by
`new Int16Array(data.buffer)` (src/index.tsx line 49). -/
def bytesToInt16 (lo hi : ℕ) : ℤ :=
  if 32768 ≤ lo + 256 * hi then (lo + 256 * hi : ℤ) - 65536 else (lo + 256 * hi : ℤ)

/-- The byte payload built by `createBlob` (src/index.tsx lines 62-72)
before base64 transport. -/
def createBlobData (data : List ℚ) : List ℕ :=
  (data.map (fun x => int16ToBytes (sampleToInt16 x))).flatten

/-- Function `createBlob` (src/index.tsx lines 62-72): scale samples to 16-bit
signed little-endian and base64-encode.  The returned `.data` field. -/
def createBlob (data : List ℚ) : String := encode (createBlobData data)

/-- The `Int16Array` view of a byte buffer: consecutive little-endian
pairs; a trailing odd byte cannot occur because the view construction
throws first (see `decodeAudioData`). -/
def pairBytesToInt16 : List ℕ → List ℤ
  | lo :: hi :: rest => bytesToInt16 lo hi :: pairBytesToInt16 rest
  | _ => []

/-- Function `decodeAudioData` (src/index.tsx lines 43-60).
`new Int16Array(data.buffer)` throws a `RangeError` when the buffer
byte length is not a multiple of 2 (ECMAScript typed-array view
construction), modelled as `.error`.  Otherwise
`frameCount = dataInt16.length / numChannels` — the buffer created by
`ctx.createBuffer` truncates this to an integer, and the channel loop
writes `dataInt16[i * numChannels + channel] / 32768.0`; loop
iterations past the truncated frame count write out of the channel
array's range and are dropped, so the effective output per channel has
`⌊dataInt16.length / numChannels⌋` frames.  `sampleRate` only tags the
buffer and does not affect the samples.  Not modelled: `createBuffer`
itself rejects a zero frame count or zero channel count with a
`NotSupportedError`; the theorems below therefore only assert the
error-free path for inputs whose truncated frame count is positive. -/
def decodeAudioData (data : List ℕ) (sampleRate numChannels : ℕ) :
    Except String (List (List ℚ)) :=
  if data.length % 2 ≠ 0 then
    Except.error "RangeError"
  else
    let dataInt16 := pairBytesToInt16 data
    let frameCount := dataInt16.length / numChannels
    Except.ok ((List.range numChannels).map (fun channel =>
      (List.range frameCount).map (fun i =>
        ((dataInt16.getD (i * numChannels + channel) 0 : ℤ) : ℚ) / 32768)))

/-! Codec lemmas -/

theorem b64Index_b64Char : ∀ n : Fin 64, b64Index (b64Char n.val) = some n.val := by decide

theorem b64Char_ne_pad : ∀ n : Fin 64, b64Char n.val ≠ '=' := by decide

theorem b64Index_b64Char_of_lt {n : ℕ} (h : n < 64) : b64Index (b64Char n) = some n :=
  b64Index_b64Char ⟨n, h⟩

theorem b64Char_ne_pad_of_lt {n : ℕ} (h : n < 64) : b64Char n ≠ '=' :=
  b64Char_ne_pad ⟨n, h⟩

/-- Base64 transport is lossless on byte lists: `atob` inverts `btoa`. -/
theorem atobChars_btoaBytes : ∀ l : List ℕ, (∀ b ∈ l, b < 256) →
    atobChars (btoaBytes l) = some l := by
  intro l
  induction l using btoaBytes.induct with
  | case1 => intro _; rfl
  | case2 a =>
      intro h
      have ha := h a (by simp)
      have e1 := b64Index_b64Char_of_lt (n := a / 4) (by omega)
      have e2 := b64Index_b64Char_of_lt (n := a % 4 * 16) (by omega)
      simp [btoaBytes, atobChars, e1, e2]
      omega
  | case3 a b =>
      intro h
      have ha := h a (by simp)
      have hb := h b (by simp)
      have e1 := b64Index_b64Char_of_lt (n := a / 4) (by omega)
      have e2 := b64Index_b64Char_of_lt (n := a % 4 * 16 + b / 16) (by omega)
      have e3 := b64Index_b64Char_of_lt (n := b % 16 * 4) (by omega)
      have ne3 := b64Char_ne_pad_of_lt (n := b % 16 * 4) (by omega)
      simp [btoaBytes, atobChars, e1, e2, e3, ne3]
      constructor <;> omega
  | case4 a b c rest ih =>
      intro h
      have ha := h a (by simp)
      have hb := h b (by simp)
      have hc := h c (by simp)
      have e1 := b64Index_b64Char_of_lt (n := a / 4) (by omega)
      have e2 := b64Index_b64Char_of_lt (n := a % 4 * 16 + b / 16) (by omega)
      have e3 := b64Index_b64Char_of_lt (n := b % 16 * 4 + c / 64) (by omega)
      have e4 := b64Index_b64Char_of_lt (n := c % 64) (by omega)
      have ne3 := b64Char_ne_pad_of_lt (n := b % 16 * 4 + c / 64) (by omega)
      have ne4 := b64Char_ne_pad_of_lt (n := c % 64) (by omega)
      have ihh := ih (fun x hx => h x (by simp [hx]))
      simp [btoaBytes, atobChars, e1, e2, e3, e4, ne3, ne4, ihh]
      refine ⟨by omega, by omega, by omega⟩

/-- Transport round trip: `decode` inverts `encode` on byte lists. -/
theorem decode_encode (l : List ℕ) (h : ∀ b ∈ l, b < 256) :
    decode (encode l) = some l := by
  unfold decode encode
  exact atobChars_btoaBytes l h

/-- The little-endian byte pair of a 16-bit signed value reads back to
the same value. -/
theorem bytesToInt16_int16ToBytes {v : ℤ} (h1 : -32768 ≤ v) (h2 : v < 32768) :
    bytesToInt16 ((v % 65536).toNat % 256) ((v % 65536).toNat / 256) = v := by
  unfold bytesToInt16
  omega

/-- Byte-pair components are bytes. -/
theorem int16ToBytes_lt (v : ℤ) : ∀ b ∈ int16ToBytes v, b < 256 := by
  unfold int16ToBytes
  intro b hb
  simp only [List.mem_cons, List.not_mem_nil, or_false] at hb
  rcases hb with h | h <;> omega

/-- On samples in `[-1, 1)` the 16-bit conversion does not wrap: it is
plain truncation of `x * 32768`, landing in `[-32768, 32768)`. -/
theorem sampleToInt16_no_wrap {x : ℚ} (h1 : -1 ≤ x) (h2 : x < 1) :
    sampleToInt16 x = jsTrunc (x * 32768) ∧
    -32768 ≤ jsTrunc (x * 32768) ∧ jsTrunc (x * 32768) < 32768 := by
  have hy1 : (-32768 : ℚ) ≤ x * 32768 := by nlinarith
  have hy2 : x * 32768 < 32768 := by nlinarith
  have hb : -32768 ≤ jsTrunc (x * 32768) ∧ jsTrunc (x * 32768) < 32768 := by
    unfold jsTrunc
    split
    · constructor
      · have : (0 : ℤ) ≤ ⌊x * 32768⌋ := Int.floor_nonneg.mpr (by assumption)
        omega
      · exact Int.floor_lt.mpr (by exact_mod_cast hy2)
    · have hneg : ¬(0 : ℚ) ≤ x * 32768 := by assumption
      constructor
      · have : ⌊-(x * 32768)⌋ ≤ 32768 := by
          have hmono := Int.floor_mono (show (-(x * 32768) : ℚ) ≤ 32768 by linarith)
          norm_num at hmono
          exact hmono
        omega
      · have : (0 : ℤ) ≤ ⌊-(x * 32768)⌋ := Int.floor_nonneg.mpr (by linarith)
        omega
  refine ⟨?_, hb⟩
  unfold sampleToInt16 toInt16wrap
  omega

/-- The 16-bit wrap always lands in the signed 16-bit range. -/
theorem toInt16wrap_range (n : ℤ) : -32768 ≤ toInt16wrap n ∧ toInt16wrap n < 32768 := by
  unfold toInt16wrap
  omega

/-- Reading an interleaved byte buffer back as 16-bit values inverts
the per-value byte split. -/
theorem pairBytesToInt16_flatten : ∀ vs : List ℤ,
    (∀ v ∈ vs, -32768 ≤ v ∧ v < 32768) →
    pairBytesToInt16 ((vs.map int16ToBytes).flatten) = vs := by
  intro vs
  induction vs with
  | nil => intro _; rfl
  | cons v rest ih =>
      intro h
      have hv := h v (by simp)
      have hrest := ih (fun x hx => h x (by simp [hx]))
      simp [int16ToBytes, pairBytesToInt16, hrest, bytesToInt16_int16ToBytes hv.1 hv.2]

theorem createBlobData_length (data : List ℚ) :
    (createBlobData data).length = 2 * data.length := by
  unfold createBlobData
  induction data with
  | nil => rfl
  | cons x rest ih =>
      simp only [List.map_cons, List.flatten_cons, List.length_append, ih]
      simp only [int16ToBytes, List.length_cons, List.length_nil]
      omega

theorem createBlobData_lt (data : List ℚ) : ∀ b ∈ createBlobData data, b < 256 := by
  unfold createBlobData
  intro b hb
  simp only [List.mem_flatten, List.mem_map] at hb
  obtain ⟨l, ⟨x, _, hx⟩, hbl⟩ := hb
  exact int16ToBytes_lt _ b (hx ▸ hbl)

/-- Reindexing a list through `List.range` of its length. -/
theorem range_map_getD {α β : Type} (f : α → β) (d : α) : ∀ l : List α,
    (List.range l.length).map (fun i => f (l.getD i d)) = l.map f := by
  intro l
  induction l with
  | nil => rfl
  | cons a rest ih =>
      simp only [List.length_cons, List.range_succ_eq_map, List.map_cons, List.getD_cons_zero,
        List.map_map]
      refine congrArg _ ?_
      rw [← ih]
      rfl

/-- Truncation toward zero moves a rational by less than 1. -/
theorem jsTrunc_close (q : ℚ) : |(jsTrunc q : ℚ) - q| ≤ 1 := by
  unfold jsTrunc
  split
  · rw [abs_sub_comm, abs_of_nonneg (by linarith [Int.floor_le q])]
    linarith [Int.lt_floor_add_one q]
  · push_cast
    rw [abs_of_nonneg]
    · linarith [Int.floor_le (-q), Int.lt_floor_add_one (-q)]
    · linarith [Int.floor_le (-q), Int.lt_floor_add_one (-q)]

/-- The full decode side applied to an encoded mono payload. -/
theorem decodeAudioData_createBlobData (samples : List ℚ) :
    decodeAudioData (createBlobData samples) 16000 1 =
      Except.ok [samples.map (fun x => ((sampleToInt16 x : ℤ) : ℚ) / 32768)] := by
  have hlen := createBlobData_length samples
  have hpair : pairBytesToInt16 (createBlobData samples) = samples.map sampleToInt16 := by
    unfold createBlobData
    rw [show (samples.map (fun x => int16ToBytes (sampleToInt16 x)))
          = ((samples.map sampleToInt16).map int16ToBytes) by rw [List.map_map]; rfl]
    exact pairBytesToInt16_flatten _ (by
      intro v hv
      simp only [List.mem_map] at hv
      obtain ⟨x, _, hx⟩ := hv
      exact hx ▸ toInt16wrap_range _)
  unfold decodeAudioData
  rw [if_neg (by omega)]
  rw [show List.range 1 = [0] from rfl]
  simp only [List.map_cons, List.map_nil, hpair, Nat.div_one]
  congr 1
  rw [show (fun i => ((((samples.map sampleToInt16).getD (i * 1 + 0) 0 : ℤ) : ℚ) / 32768))
        = (fun i => (fun v : ℤ => ((v : ℚ) / 32768)) ((samples.map sampleToInt16).getD i 0))
      by funext i; simp]
  rw [range_map_getD (fun v : ℤ => ((v : ℚ) / 32768)) 0 (samples.map sampleToInt16)]
  rw [List.map_map]
  rfl

/-- Per-sample quantization bound for samples in `[-1, 1)`. -/
theorem sample_quantization_bound {x : ℚ} (h1 : -1 ≤ x) (h2 : x < 1) :
    |((sampleToInt16 x : ℤ) : ℚ) / 32768 - x| ≤ 1 / 32768 := by
  obtain ⟨heq, _, _⟩ := sampleToInt16_no_wrap h1 h2
  rw [heq]
  have key : ((jsTrunc (x * 32768) : ℤ) : ℚ) / 32768 - x
      = (((jsTrunc (x * 32768) : ℤ) : ℚ) - x * 32768) / 32768 := by ring
  rw [key, abs_div, abs_of_pos (show (0:ℚ) < 32768 by norm_num)]
  have := jsTrunc_close (x * 32768)
  exact (div_le_div_iff_of_pos_right (by norm_num)).mpr this

theorem pairBytesToInt16_length : ∀ l : List ℕ, (pairBytesToInt16 l).length = l.length / 2
  | [] => by simp [pairBytesToInt16]
  | [lo] => by simp [pairBytesToInt16]
  | lo :: hi :: rest => by
      simp only [pairBytesToInt16, List.length_cons, pairBytesToInt16_length rest]
      omega

theorem sampleToInt16_one : sampleToInt16 1 = -32768 := by
  have htr : jsTrunc ((1 : ℚ) * 32768) = 32768 := by
    unfold jsTrunc
    rw [if_pos (by norm_num)]
    norm_num
  unfold sampleToInt16
  rw [htr]
  unfold toInt16wrap
  decide

/-- Claim C4 (as stated, refuted at the sample value 1): the sample 1
lies in `[-1, 1]`, but `createBlob` wraps `1 * 32768 = 32768` around to
the 16-bit value `-32768`, so the decoded sample is `-1`, off by 2 —
far beyond the claimed quantization error `1/32768`. -/
theorem c4_pcm_round_trip_counterexample :
    (∀ x ∈ [(1 : ℚ)], -1 ≤ x ∧ x ≤ 1) ∧
    decode (createBlob [(1 : ℚ)]) = some [0, 128] ∧
    decodeAudioData [0, 128] 16000 1 = Except.ok [[(-1 : ℚ)]] ∧
    ¬(|(-1 : ℚ) - 1| ≤ 1 / 32768) := by
  refine ⟨by decide, ?_, ?_, by norm_num⟩
  · have hdata : createBlobData [(1 : ℚ)] = [0, 128] := by
      unfold createBlobData
      rw [List.map_cons, List.map_nil, sampleToInt16_one]
      decide
    unfold createBlob
    rw [hdata]
    exact decode_encode [0, 128] (by decide)
  · unfold decodeAudioData
    rw [if_neg (by decide)]
    have hp : pairBytesToInt16 [0, 128] = [-32768] := by
      unfold pairBytesToInt16 bytesToInt16
      norm_num
      rfl
    norm_num [hp, List.range_succ]

/-- Claim C4 (amended): for every sample array with samples in the
half-open range `[-1, 1)`, encoding through `createBlob` (truncate to
16-bit signed little-endian, base64) and decoding through `decode` +
`decodeAudioData` at the same rate, mono, reproduces every sample to
within the 16-bit quantization error `1/32768`.  (At exactly 1 the
conversion wraps around to -1, so 1 must be excluded; the array must
be nonempty because `createBuffer` rejects a zero frame count.) -/
theorem c4_pcm_round_trip (samples : List ℚ) (hne : samples ≠ [])
    (h : ∀ x ∈ samples, -1 ≤ x ∧ x < 1) :
    ∃ bs : List ℕ,
      decode (createBlob samples) = some bs ∧
      decodeAudioData bs 16000 1 =
        Except.ok [samples.map (fun x => ((sampleToInt16 x : ℤ) : ℚ) / 32768)] ∧
      ∀ x ∈ samples, |((sampleToInt16 x : ℤ) : ℚ) / 32768 - x| ≤ 1 / 32768 :=
  ⟨createBlobData samples, decode_encode _ (createBlobData_lt samples),
    decodeAudioData_createBlobData samples,
    fun x hx => sample_quantization_bound (h x hx).1 (h x hx).2⟩

/-- Witness for `c4_pcm_round_trip` at the concrete sample list `[0]`. -/
theorem c4_pcm_round_trip_witness :
    ∃ bs : List ℕ,
      decode (createBlob [(0 : ℚ)]) = some bs ∧
      decodeAudioData bs 16000 1 =
        Except.ok [[(0 : ℚ)].map (fun x => ((sampleToInt16 x : ℤ) : ℚ) / 32768)] ∧
      ∀ x ∈ [(0 : ℚ)], |((sampleToInt16 x : ℤ) : ℚ) / 32768 - x| ≤ 1 / 32768 :=
  c4_pcm_round_trip [(0 : ℚ)] (by simp) (by decide)

/-- Claim C8 (as stated, refuted at a 3-byte input): for an odd byte
length, `new Int16Array(data.buffer)` throws a `RangeError`, so the
decoder does have an error path; 3 is not a multiple of
`2 × channelCount` with one channel. -/
theorem c8_malformed_counterexample :
    decodeAudioData [0, 0, 0] 24000 1 = Except.error "RangeError" ∧
    ¬((3 : ℕ) % (2 * 1) = 0) := by
  constructor
  · rfl
  · decide

/-- Claim C8 (amended): byte arrays of even length — including lengths
that are not a multiple of `2 × channelCount` — have no error path in
`decodeAudioData` and simply produce truncated output
(`⌊⌊len/2⌋ / channelCount⌋` frames per channel); odd byte lengths make
the `Int16Array` view construction throw a `RangeError`. -/
theorem c8_even_length_no_error (bytes : List ℕ) (sr numChannels : ℕ)
    (h : bytes.length % 2 = 0) (hC : 1 ≤ numChannels)
    (henough : numChannels ≤ bytes.length / 2) :
    ∃ out, decodeAudioData bytes sr numChannels = Except.ok out ∧
      out.length = numChannels ∧
      ∀ chl ∈ out, chl.length = bytes.length / 2 / numChannels := by
  unfold decodeAudioData
  rw [if_neg (by omega)]
  refine ⟨_, rfl, by simp, ?_⟩
  intro chl hchl
  simp only [List.mem_map] at hchl
  obtain ⟨ch, _, hch⟩ := hchl
  rw [← hch]
  simp [pairBytesToInt16_length]

/-- Witness for `c8_even_length_no_error`: 6 bytes, 2 channels — 6 is
even but not a multiple of `2 × 2`, output truncated to 1 frame. -/
theorem c8_even_length_no_error_witness :
    ∃ out, decodeAudioData [1, 2, 3, 4, 5, 6] 24000 2 = Except.ok out ∧
      out.length = 2 ∧
      ∀ chl ∈ out, chl.length = [1, 2, 3, 4, 5, 6].length / 2 / 2 :=
  c8_even_length_no_error [1, 2, 3, 4, 5, 6] 24000 2 (by decide) (by decide) (by decide)

/-! Section: audio output scheduler and conversation state

The second app variant (src/index.tsx lines 1210-1608); the first
variant (lines 258-518) has the identical scheduling logic.  React
`useState`/`useRef` pairs are modelled as fields of one `AppState`;
`setStatus` folds in the effect at lines 1241-1244 that resets the
boredom counter whenever status changes to a non-idle value.  Within a
single synchronous handler the code reads `statusRef.current`, which
still holds the status the handler started with (the ref is only
synced by a `useEffect` after re-render), so handlers branch on the
entry status throughout. -/

inductive Status
  | idle
  | listening
  | speaking
  | thinking
  deriving DecidableEq

structure AppState where
  status : Status
  pending : List ℕ
  nextStartTime : ℚ
  vadActive : ℕ
  boredom : ℕ
  deriving DecidableEq

/-- Externally observable side effects emitted by a handler, in
program order: `source.stop()`, `source.start(t)`, and
`sendRealtimeInput` of a mic frame. -/
inductive Action
  | stopSource (srcId : ℕ)
  | startSource (srcId : ℕ) (startAt : ℚ)
  | sendFrame (frame : List ℚ)
  deriving DecidableEq

/-- Status update `setStatus`, combined with the effect at src/index.tsx lines
1241-1244: entering any non-idle status resets `boredom` to 0. -/
def setStatus (s : Status) (st : AppState) : AppState :=
  { st with status := s, boredom := if s = Status.idle then st.boredom else 0 }

/-- Clamp `startAt = max(nextStartTime, outputCtx.currentTime)`
(src/index.tsx line 1564 / 466). -/
def scheduleStart (nextStartTime clock : ℚ) : ℚ := max nextStartTime clock

/-- The scheduling recurrence of the modelTurn branch run over a
sequence of chunks, each given as (output-clock time observed at its
scheduling moment, duration): start each chunk at
`max(nextStartTime, clock)` and advance `nextStartTime` by the
duration (src/index.tsx lines 1564, 1569 / 466, 474-475). -/
def scheduleRun (nst : ℚ) : List (ℚ × ℚ) → List ℚ
  | [] => []
  | (clk, dur) :: rest =>
      scheduleStart nst clk :: scheduleRun (scheduleStart nst clk + dur) rest

/-- Mean absolute amplitude of a captured frame
(src/index.tsx line 1491): `reduce((a, b) => a + Math.abs(b)) / length`. -/
def volumeOf (frame : List ℚ) : ℚ := (frame.map (fun x => |x|)).sum / frame.length

/-- Function `stopAllAudio` (src/index.tsx lines 1356-1363): stop every pending
source (in iteration order), clear the set, reset `nextStartTime` to
the clock origin 0, set status to idle. -/
def stopAllAudio (st : AppState) : AppState × List Action :=
  (setStatus Status.idle { st with pending := [], nextStartTime := 0 },
   st.pending.map Action.stopSource)

/-- Handler `scriptProcessor.onaudioprocess` (src/index.tsx lines 1489-1505):
if the frame volume exceeds the noise threshold, reset the hangover
counter to 5, stop all audio when the agent is speaking (barge-in),
move idle to listening, and forward the frame; a silent frame is
forwarded only while the hangover counter is positive, decrementing
it.  All status comparisons use the entry status (`statusRef`). -/
def onAudioProcess (noiseThreshold : ℚ) (st : AppState) (frame : List ℚ) :
    AppState × List Action :=
  let volume := volumeOf frame
  if noiseThreshold < volume then
    let st1 := { st with vadActive := 5 }
    let stopped := if st.status = Status.speaking then stopAllAudio st1 else (st1, [])
    let st3 := if st.status = Status.idle then setStatus Status.listening stopped.1
               else stopped.1
    (st3, stopped.2 ++ [Action.sendFrame frame])
  else if 0 < st.vadActive then
    ({ st with vadActive := st.vadActive - 1 }, [Action.sendFrame frame])
  else (st, [])

/-- The modelTurn audio branch of `onmessage` (src/index.tsx lines
1557-1570): set status speaking, clamp `nextStartTime` to the output
clock, start the source there, advance `nextStartTime` by the chunk
duration, add the source to the pending set. -/
def onModelTurn (st : AppState) (srcId : ℕ) (clock duration : ℚ) :
    AppState × List Action :=
  let st1 := setStatus Status.speaking st
  let startAt := scheduleStart st1.nextStartTime clock
  ({ st1 with pending := st1.pending ++ [srcId], nextStartTime := startAt + duration },
   [Action.startSource srcId startAt])

/-- Handler `source.onended` (src/index.tsx line 1568): remove the source from
the pending set; if the set became empty, set status idle. -/
def onSourceEnded (st : AppState) (srcId : ℕ) : AppState :=
  let remaining := st.pending.filter (fun s => s ≠ srcId)
  let st1 := { st with pending := remaining }
  if remaining.length = 0 then setStatus Status.idle st1 else st1

/-- The boredom interval handler (src/index.tsx lines 1250-1257):
every tick, while idle, `boredom := min(100, boredom + 1)`. -/
def boredomTick (st : AppState) : AppState :=
  if st.status = Status.idle then { st with boredom := min 100 (st.boredom + 1) } else st

/-- The status-relevant inbound events of one session. -/
inductive Event
  | frame (data : List ℚ)
  | modelTurnAudio (srcId : ℕ) (clock duration : ℚ)
  | sourceEnded (srcId : ℕ)
  | interrupted
  | tick
  | close

/-- One event dispatched to its handler: mic frames to
`onaudioprocess`, modelTurn audio payloads to the scheduler, `onended`
callbacks, the server `interrupted` signal (src/index.tsx lines
1572-1576) which calls `stopAllAudio`, the boredom interval tick, and
`onclose` (line 1579) which sets status idle. -/
def stepEvent (noiseThreshold : ℚ) (st : AppState) : Event → AppState × List Action
  | Event.frame data => onAudioProcess noiseThreshold st data
  | Event.modelTurnAudio srcId clock duration => onModelTurn st srcId clock duration
  | Event.sourceEnded srcId => (onSourceEnded st srcId, [])
  | Event.interrupted => stopAllAudio st
  | Event.tick => (boredomTick st, [])
  | Event.close => (setStatus Status.idle st, [])

/-- Fresh session state: idle, nothing pending, clock origin, no
hangover, no boredom. -/
def initState : AppState := ⟨Status.idle, [], 0, 0, 0⟩

def runEvents (noiseThreshold : ℚ) (st : AppState) : List Event → AppState
  | [] => st
  | e :: rest => runEvents noiseThreshold (stepEvent noiseThreshold st e).1 rest

/-- A sequence of mic frames through `onaudioprocess`, accumulating
emitted actions in order. -/
def runFrames (noiseThreshold : ℚ) (st : AppState) : List (List ℚ) → AppState × List Action
  | [] => (st, [])
  | f :: rest =>
      let step := onAudioProcess noiseThreshold st f
      let tail := runFrames noiseThreshold step.1 rest
      (tail.1, step.2 ++ tail.2)

/-- The frames forwarded to the session, in order, among a handler
run's actions. -/
def sentFrames (acts : List Action) : List (List ℚ) :=
  acts.filterMap (fun a => match a with | Action.sendFrame f => some f | _ => none)

/-! Scheduler lemmas and Claim C1 -/

theorem scheduleRun_rec : ∀ (chunks : List (ℚ × ℚ)) (nst : ℚ) (k : ℕ),
    k + 1 < chunks.length →
    (scheduleRun nst chunks).getD (k + 1) 0 =
      max ((scheduleRun nst chunks).getD k 0 + (chunks.getD k (0, 0)).2)
        (chunks.getD (k + 1) (0, 0)).1
  | [], _, _, h => by simp at h
  | [(c, d)], _, _, h => by simp at h
  | (c0, d0) :: (c1, d1) :: rest, nst, 0, h => by
      simp [scheduleRun, scheduleStart, max_comm]
  | (c0, d0) :: (c1, d1) :: rest, nst, k + 1, h => by
      have ih := scheduleRun_rec ((c1, d1) :: rest) (scheduleStart nst c0 + d0) k
        (by simpa using h)
      simpa [scheduleRun] using ih

theorem scheduleRun_ge_clock : ∀ (chunks : List (ℚ × ℚ)) (nst : ℚ) (j : ℕ),
    j < chunks.length →
    (chunks.getD j (0, 0)).1 ≤ (scheduleRun nst chunks).getD j 0
  | [], _, _, h => by simp at h
  | (c0, d0) :: rest, nst, 0, h => by
      simp [scheduleRun, scheduleStart]
  | (c0, d0) :: rest, nst, j + 1, h => by
      have ih := scheduleRun_ge_clock rest (scheduleStart nst c0 + d0) j (by simpa using h)
      simpa [scheduleRun] using ih

/-- Claim C1 (as stated, refuted at a concrete chunk sequence): with
`nextStartTime` starting at 0, a 1-second chunk scheduled when the
output clock reads 0 starts at 0, but a second 1-second chunk arriving
when the clock already reads 5 starts at 5, not at
`start₁ + d₁ = 1` — the claimed equality fails whenever the output
clock has passed `nextStartTime` between arrivals. -/
theorem c1_gapless_counterexample :
    scheduleRun 0 [((0 : ℚ), (1 : ℚ)), (5, 1)] = [0, 5] ∧ ¬((5 : ℚ) = 0 + 1) := by
  constructor
  · simp [scheduleRun, scheduleStart]
  · norm_num

/-- Claim C1 (amended): each chunk starts at
`max(nextStartTime, clock)` and `nextStartTime` then advances to that
start plus the chunk's duration, so chunk `k+1` starts at
`max(start_k + d_k, clock at its scheduling)` — never earlier than
`start_k + d_k` (with equality whenever the output clock has not
passed that instant) and never before the output-clock time observed
at the moment of scheduling. -/
theorem c1_gapless_scheduling (nst : ℚ) (chunks : List (ℚ × ℚ)) (k : ℕ)
    (hk : k + 1 < chunks.length) :
    (scheduleRun nst chunks).getD (k + 1) 0 =
      max ((scheduleRun nst chunks).getD k 0 + (chunks.getD k (0, 0)).2)
        (chunks.getD (k + 1) (0, 0)).1 ∧
    (scheduleRun nst chunks).getD k 0 + (chunks.getD k (0, 0)).2 ≤
      (scheduleRun nst chunks).getD (k + 1) 0 ∧
    (∀ j, j < chunks.length →
      (chunks.getD j (0, 0)).1 ≤ (scheduleRun nst chunks).getD j 0) := by
  refine ⟨scheduleRun_rec chunks nst k hk, ?_, fun j hj => scheduleRun_ge_clock chunks nst j hj⟩
  rw [scheduleRun_rec chunks nst k hk]
  exact le_max_left _ _

/-- Witness for `c1_gapless_scheduling` at two concrete chunks. -/
theorem c1_gapless_scheduling_witness :
    (scheduleRun 0 [((0 : ℚ), (1 : ℚ)), (2, 3)]).getD 1 0 =
      max ((scheduleRun 0 [((0 : ℚ), (1 : ℚ)), (2, 3)]).getD 0 0 +
        ([((0 : ℚ), (1 : ℚ)), (2, 3)].getD 0 (0, 0)).2)
        ([((0 : ℚ), (1 : ℚ)), (2, 3)].getD 1 (0, 0)).1 ∧
    (scheduleRun 0 [((0 : ℚ), (1 : ℚ)), (2, 3)]).getD 0 0 +
        ([((0 : ℚ), (1 : ℚ)), (2, 3)].getD 0 (0, 0)).2 ≤
      (scheduleRun 0 [((0 : ℚ), (1 : ℚ)), (2, 3)]).getD 1 0 ∧
    (∀ j, j < [((0 : ℚ), (1 : ℚ)), (2, 3)].length →
      ([((0 : ℚ), (1 : ℚ)), (2, 3)].getD j (0, 0)).1 ≤
        (scheduleRun 0 [((0 : ℚ), (1 : ℚ)), (2, 3)]).getD j 0) :=
  c1_gapless_scheduling 0 [((0 : ℚ), (1 : ℚ)), (2, 3)] 0 (by decide)

/-! Voice-activity gate: Claims C2 and C5 -/

theorem sentFrames_append (a b : List Action) :
    sentFrames (a ++ b) = sentFrames a ++ sentFrames b := by
  unfold sentFrames
  exact List.filterMap_append a b _

theorem sentFrames_stops (pending : List ℕ) :
    sentFrames (pending.map Action.stopSource) = [] := by
  unfold sentFrames
  induction pending with
  | nil => rfl
  | cons p rest ih =>
      simp only [List.map_cons, List.filterMap_cons]
      exact ih

/-- An active frame always resets the hangover counter to 5 and is
itself forwarded (as the last action of the handler). -/
theorem onAudioProcess_active (noiseThreshold : ℚ) (st : AppState) (frame : List ℚ)
    (hvol : noiseThreshold < volumeOf frame) :
    (onAudioProcess noiseThreshold st frame).1.vadActive = 5 ∧
    sentFrames (onAudioProcess noiseThreshold st frame).2 = [frame] := by
  unfold onAudioProcess
  rw [if_pos hvol]
  constructor
  · by_cases h1 : st.status = Status.speaking <;>
      by_cases h2 : st.status = Status.idle <;>
        simp [h1, h2, stopAllAudio, setStatus]
  · by_cases h1 : st.status = Status.speaking <;>
      simp [h1, stopAllAudio, sentFrames_append, sentFrames_stops, sentFrames]

/-- Claim C2: a frame whose mean absolute amplitude exceeds the noise
threshold, arriving while status is speaking, synchronously stops
every pending source (the emitted actions are exactly one stop per
pending source, in order), empties the pending set, resets
`nextStartTime` to the clock origin 0 and status to idle — and only
after all that forwards the triggering frame to the session. -/
theorem c2_barge_in (noiseThreshold : ℚ) (st : AppState) (frame : List ℚ)
    (hspeak : st.status = Status.speaking) (hvol : noiseThreshold < volumeOf frame) :
    (onAudioProcess noiseThreshold st frame).1.pending = [] ∧
    (onAudioProcess noiseThreshold st frame).1.nextStartTime = 0 ∧
    (onAudioProcess noiseThreshold st frame).1.status = Status.idle ∧
    (onAudioProcess noiseThreshold st frame).2 =
      st.pending.map Action.stopSource ++ [Action.sendFrame frame] := by
  unfold onAudioProcess
  rw [if_pos hvol]
  simp [hspeak, stopAllAudio, setStatus]

/-- Witness for `c2_barge_in`: speaking with two pending sources, loud
frame `[1]` against threshold `1/2`. -/
theorem c2_barge_in_witness :
    (onAudioProcess (1/2) ⟨Status.speaking, [1, 2], 7, 0, 0⟩ [1]).1.pending = [] ∧
    (onAudioProcess (1/2) ⟨Status.speaking, [1, 2], 7, 0, 0⟩ [1]).1.nextStartTime = 0 ∧
    (onAudioProcess (1/2) ⟨Status.speaking, [1, 2], 7, 0, 0⟩ [1]).1.status = Status.idle ∧
    (onAudioProcess (1/2) ⟨Status.speaking, [1, 2], 7, 0, 0⟩ [1]).2 =
      ([1, 2] : List ℕ).map Action.stopSource ++ [Action.sendFrame [1]] :=
  c2_barge_in (1/2) ⟨Status.speaking, [1, 2], 7, 0, 0⟩ [1] rfl (by norm_num [volumeOf])

/-- Silent frames drain the hangover counter: starting from any state,
a run of below-threshold frames forwards exactly the first
`vadActive`-many of them. -/
theorem runFrames_silent (noiseThreshold : ℚ) : ∀ (frames : List (List ℚ)) (st : AppState),
    (∀ f ∈ frames, ¬ noiseThreshold < volumeOf f) →
    sentFrames (runFrames noiseThreshold st frames).2 = frames.take st.vadActive
  | [], st, _ => by simp [runFrames, sentFrames]
  | f :: rest, st, h => by
      have hf := h f (by simp)
      have hrest : ∀ g ∈ rest, ¬ noiseThreshold < volumeOf g :=
        fun g hg => h g (by simp [hg])
      by_cases hv : 0 < st.vadActive
      · obtain ⟨n, hn⟩ : ∃ n, st.vadActive = n + 1 := ⟨st.vadActive - 1, by omega⟩
        have ih := runFrames_silent noiseThreshold rest
          { st with vadActive := st.vadActive - 1 } hrest
        unfold runFrames onAudioProcess
        rw [if_neg hf, if_pos hv]
        simpa [sentFrames_append, sentFrames, hn] using ih
      · have h0 : st.vadActive = 0 := by omega
        have ih := runFrames_silent noiseThreshold rest st hrest
        unfold runFrames onAudioProcess
        rw [if_neg hf, if_neg hv]
        simpa [sentFrames_append, sentFrames, h0] using ih

/-- The hangover counter drains by exactly one per forwarded silent
frame and stops at zero. -/
theorem runFrames_silent_vad (noiseThreshold : ℚ) : ∀ (frames : List (List ℚ)) (st : AppState),
    (∀ f ∈ frames, ¬ noiseThreshold < volumeOf f) →
    (runFrames noiseThreshold st frames).1.vadActive = st.vadActive - frames.length
  | [], st, _ => by simp [runFrames]
  | f :: rest, st, h => by
      have hf := h f (by simp)
      have hrest : ∀ g ∈ rest, ¬ noiseThreshold < volumeOf g :=
        fun g hg => h g (by simp [hg])
      by_cases hv : 0 < st.vadActive
      · have ih := runFrames_silent_vad noiseThreshold rest
          { st with vadActive := st.vadActive - 1 } hrest
        unfold runFrames onAudioProcess
        rw [if_neg hf, if_pos hv]
        simp only [List.length_cons]
        rw [ih]
        simp only []
        omega
      · have h0 : st.vadActive = 0 := by omega
        have ih := runFrames_silent_vad noiseThreshold rest st hrest
        unfold runFrames onAudioProcess
        rw [if_neg hf, if_neg hv]
        simp only [List.length_cons]
        rw [ih]
        omega

/-- Claim C5: the hangover budget is the counter value 5 set on an
active frame; for the frame shape [active, silent x 5, silent] (one
frame above the threshold, six below), the gate forwards exactly the
active frame plus the 5 following silent frames, and drops the 6th
silent frame. -/
theorem c5_vad_hangover (noiseThreshold : ℚ) (st : AppState)
    (active : List ℚ) (silents : List (List ℚ))
    (ha : noiseThreshold < volumeOf active)
    (hs : ∀ f ∈ silents, ¬ noiseThreshold < volumeOf f)
    (hlen : silents.length = 6) :
    sentFrames (runFrames noiseThreshold st (active :: silents)).2 =
      active :: silents.take 5 ∧
    (sentFrames (runFrames noiseThreshold st (active :: silents)).2).length = 6 ∧
    (runFrames noiseThreshold st (active :: silents)).1.vadActive = 0 := by
  have h5 := onAudioProcess_active noiseThreshold st active ha
  have hsil := runFrames_silent noiseThreshold silents
    (onAudioProcess noiseThreshold st active).1 hs
  rw [h5.1] at hsil
  have hmain : sentFrames (runFrames noiseThreshold st (active :: silents)).2 =
      active :: silents.take 5 := by
    unfold runFrames
    rw [sentFrames_append, h5.2, hsil]
    rfl
  refine ⟨hmain, ?_, ?_⟩
  · rw [hmain]
    simp [List.length_take, hlen]
  · have hvad := runFrames_silent_vad noiseThreshold silents
      (onAudioProcess noiseThreshold st active).1 hs
    rw [h5.1, hlen] at hvad
    show (runFrames noiseThreshold (onAudioProcess noiseThreshold st active).1 silents).1.vadActive = 0
    rw [hvad]

/-- Witness for `c5_vad_hangover`: loud frame `[1]` then six silent
frames `[0]`, threshold `1/2`; exactly frames 1-6 are forwarded. -/
theorem c5_vad_hangover_witness :
    sentFrames (runFrames (1/2) initState
        ([1] :: [[0], [0], [0], [0], [0], [0]])).2 =
      [1] :: ([[0], [0], [0], [0], [0], [0]] : List (List ℚ)).take 5 ∧
    (sentFrames (runFrames (1/2) initState
        ([1] :: [[0], [0], [0], [0], [0], [0]])).2).length = 6 ∧
    (runFrames (1/2) initState ([1] :: [[0], [0], [0], [0], [0], [0]])).1.vadActive = 0 :=
  c5_vad_hangover (1/2) initState [1] [[0], [0], [0], [0], [0], [0]]
    (by norm_num [volumeOf])
    (by intro f hf; fin_cases hf <;> norm_num [volumeOf])
    (by decide)

/-! Status and boredom invariants: Claims C9 and C10 -/

/-- The PendingPlayback invariant: the program is never `speaking`
with an empty pending set (status falls back to idle as soon as the
last source ends or everything is stopped). -/
def PendingInv (st : AppState) : Prop :=
  st.pending = [] → st.status ≠ Status.speaking

/-- Boredom stays capped at 100 and is 0 whenever status is not idle. -/
def BoredomInv (st : AppState) : Prop :=
  st.boredom ≤ 100 ∧ (st.status ≠ Status.idle → st.boredom = 0)

theorem onSourceEnded_last (st : AppState) (s : ℕ) (h : st.pending = [s]) :
    (onSourceEnded st s).status = Status.idle ∧ (onSourceEnded st s).pending = [] := by
  unfold onSourceEnded
  rw [h]
  simp [setStatus]

theorem stepEvent_pendingInv (noiseThreshold : ℚ) (st : AppState) (e : Event)
    (h : PendingInv st) : PendingInv (stepEvent noiseThreshold st e).1 := by
  cases e with
  | frame data =>
      simp only [stepEvent]
      unfold onAudioProcess
      by_cases hv : noiseThreshold < volumeOf data
      · rw [if_pos hv]
        by_cases h1 : st.status = Status.speaking <;>
          by_cases h2 : st.status = Status.idle <;>
            simp_all [stopAllAudio, setStatus, PendingInv]
      · rw [if_neg hv]
        by_cases h0 : 0 < st.vadActive <;> simp_all [PendingInv]
  | modelTurnAudio srcId clock duration =>
      simp only [stepEvent]
      unfold onModelTurn setStatus
      intro hp
      simp at hp
  | sourceEnded srcId =>
      simp only [stepEvent]
      unfold onSourceEnded
      by_cases hr : (st.pending.filter (fun s => s ≠ srcId)).length = 0
      · rw [if_pos hr]
        intro _
        simp [setStatus]
      · rw [if_neg hr]
        intro hp
        refine absurd ?_ hr
        have hp2 : List.filter (fun s => s ≠ srcId) st.pending = [] := hp
        rw [hp2]
        rfl
  | interrupted =>
      simp only [stepEvent]
      unfold stopAllAudio setStatus
      intro hp
      simp
  | tick =>
      simp only [stepEvent]
      unfold boredomTick
      by_cases hi : st.status = Status.idle <;> simp_all [PendingInv]
  | close =>
      simp only [stepEvent]
      unfold setStatus
      intro hp
      simp

theorem runEvents_pendingInv (noiseThreshold : ℚ) : ∀ (events : List Event) (st : AppState),
    PendingInv st → PendingInv (runEvents noiseThreshold st events)
  | [], _, h => h
  | e :: rest, st, h =>
      runEvents_pendingInv noiseThreshold rest _ (stepEvent_pendingInv noiseThreshold st e h)

/-- Claim C9: (1) when the only pending source ends, the handler
empties the pending set and sets status idle in the same synchronous
step; (2) from idle, the only events that move the status away from
idle are a modelTurn audio payload (to speaking) and an
above-threshold mic frame (to listening) — every other event leaves
the status idle; (3) in every state reachable from the fresh session
state, an empty pending set rules out `speaking`. -/
theorem c9_idle_convergence (noiseThreshold : ℚ) :
    (∀ (st : AppState) (s : ℕ), st.pending = [s] →
      (stepEvent noiseThreshold st (Event.sourceEnded s)).1.status = Status.idle ∧
      (stepEvent noiseThreshold st (Event.sourceEnded s)).1.pending = []) ∧
    (∀ (st : AppState) (e : Event), st.status = Status.idle →
      (stepEvent noiseThreshold st e).1.status = Status.idle ∨
      ((∃ srcId clock duration, e = Event.modelTurnAudio srcId clock duration) ∧
        (stepEvent noiseThreshold st e).1.status = Status.speaking) ∨
      ((∃ data, e = Event.frame data ∧ noiseThreshold < volumeOf data) ∧
        (stepEvent noiseThreshold st e).1.status = Status.listening)) ∧
    (∀ events : List Event, (runEvents noiseThreshold initState events).pending = [] →
      (runEvents noiseThreshold initState events).status ≠ Status.speaking) := by
  refine ⟨fun st s h => onSourceEnded_last st s h, ?_, ?_⟩
  · intro st e hidle
    cases e with
    | frame data =>
        by_cases hv : noiseThreshold < volumeOf data
        · refine Or.inr (Or.inr ⟨⟨data, rfl, hv⟩, ?_⟩)
          simp only [stepEvent]
          unfold onAudioProcess
          rw [if_pos hv]
          simp [hidle, setStatus]
        · refine Or.inl ?_
          simp only [stepEvent]
          unfold onAudioProcess
          rw [if_neg hv]
          by_cases h0 : 0 < st.vadActive <;> simp_all
    | modelTurnAudio srcId clock duration =>
        refine Or.inr (Or.inl ⟨⟨srcId, clock, duration, rfl⟩, ?_⟩)
        simp only [stepEvent]
        unfold onModelTurn setStatus
        rfl
    | sourceEnded srcId =>
        refine Or.inl ?_
        simp only [stepEvent]
        unfold onSourceEnded
        by_cases hr : (st.pending.filter (fun s => s ≠ srcId)).length = 0
        · rw [if_pos hr]
          rfl
        · rw [if_neg hr]
          exact hidle
    | interrupted =>
        exact Or.inl rfl
    | tick =>
        refine Or.inl ?_
        simp only [stepEvent]
        unfold boredomTick
        rw [if_pos hidle]
        exact hidle
    | close =>
        exact Or.inl rfl
  · intro events
    exact runEvents_pendingInv noiseThreshold events initState (fun _ => by
      intro hcontra
      exact Status.noConfusion (hcontra.symm.trans (rfl : initState.status = Status.idle)))

/-- Witness for `c9_idle_convergence`: a speaking state whose single
pending source 3 ends converges to idle with nothing pending. -/
theorem c9_idle_convergence_witness :
    (stepEvent 1 ⟨Status.speaking, [3], 2, 0, 0⟩ (Event.sourceEnded 3)).1.status =
      Status.idle ∧
    (stepEvent 1 ⟨Status.speaking, [3], 2, 0, 0⟩ (Event.sourceEnded 3)).1.pending = [] :=
  (c9_idle_convergence 1).1 ⟨Status.speaking, [3], 2, 0, 0⟩ 3 rfl

theorem stepEvent_boredomInv (noiseThreshold : ℚ) (st : AppState) (e : Event)
    (h : BoredomInv st) : BoredomInv (stepEvent noiseThreshold st e).1 := by
  obtain ⟨hle, hzero⟩ := h
  cases e with
  | frame data =>
      simp only [stepEvent]
      unfold onAudioProcess
      by_cases hv : noiseThreshold < volumeOf data
      · rw [if_pos hv]
        by_cases h1 : st.status = Status.speaking <;>
          by_cases h2 : st.status = Status.idle <;>
            simp_all [stopAllAudio, setStatus, BoredomInv]
      · rw [if_neg hv]
        by_cases h0 : 0 < st.vadActive <;> simp_all [BoredomInv]
  | modelTurnAudio srcId clock duration =>
      simp only [stepEvent]
      unfold onModelTurn setStatus
      exact ⟨by simp, fun _ => by simp⟩
  | sourceEnded srcId =>
      simp only [stepEvent]
      unfold onSourceEnded
      by_cases hr : (st.pending.filter (fun s => s ≠ srcId)).length = 0
      · rw [if_pos hr]
        exact ⟨hle, fun hne => absurd rfl hne⟩
      · rw [if_neg hr]
        exact ⟨hle, hzero⟩
  | interrupted =>
      simp only [stepEvent]
      unfold stopAllAudio setStatus
      exact ⟨hle, fun hne => absurd rfl hne⟩
  | tick =>
      simp only [stepEvent]
      unfold boredomTick
      by_cases hi : st.status = Status.idle <;> simp_all [BoredomInv]
  | close =>
      simp only [stepEvent]
      unfold setStatus
      exact ⟨hle, fun hne => absurd rfl hne⟩

theorem runEvents_boredomInv (noiseThreshold : ℚ) : ∀ (events : List Event) (st : AppState),
    BoredomInv st → BoredomInv (runEvents noiseThreshold st events)
  | [], _, h => h
  | e :: rest, st, h =>
      runEvents_boredomInv noiseThreshold rest _ (stepEvent_boredomInv noiseThreshold st e h)

/-- Claim C10: in every state reachable from the fresh session state
the boredom counter is at most 100 and is 0 whenever status is not
idle (every transition to a non-idle status resets it); a timer tick
increments it by exactly 1 (capped at 100) while idle and leaves it
unchanged otherwise; and no event ever changes it except to reset it
to 0 or to apply that capped increment. -/
theorem c10_boredom_invariant (noiseThreshold : ℚ) :
    (∀ events : List Event,
      (runEvents noiseThreshold initState events).boredom ≤ 100 ∧
      ((runEvents noiseThreshold initState events).status ≠ Status.idle →
        (runEvents noiseThreshold initState events).boredom = 0)) ∧
    (∀ st : AppState, st.status = Status.idle →
      (boredomTick st).boredom = min 100 (st.boredom + 1)) ∧
    (∀ st : AppState, st.status ≠ Status.idle → (boredomTick st).boredom = st.boredom) ∧
    (∀ (st : AppState) (e : Event),
      (stepEvent noiseThreshold st e).1.boredom = st.boredom ∨
      (stepEvent noiseThreshold st e).1.boredom = 0 ∨
      (e = Event.tick ∧ st.status = Status.idle ∧
        (stepEvent noiseThreshold st e).1.boredom = min 100 (st.boredom + 1))) := by
  refine ⟨?_, ?_, ?_, ?_⟩
  · intro events
    exact runEvents_boredomInv noiseThreshold events initState ⟨by decide, fun _ => rfl⟩
  · intro st hidle
    unfold boredomTick
    rw [if_pos hidle]
  · intro st hne
    unfold boredomTick
    rw [if_neg hne]
  · intro st e
    cases e with
    | frame data =>
        simp only [stepEvent]
        unfold onAudioProcess
        by_cases hv : noiseThreshold < volumeOf data
        · rw [if_pos hv]
          by_cases h1 : st.status = Status.speaking <;>
            by_cases h2 : st.status = Status.idle <;>
              simp_all [stopAllAudio, setStatus]
        · rw [if_neg hv]
          by_cases h0 : 0 < st.vadActive <;> simp_all
    | modelTurnAudio srcId clock duration =>
        refine Or.inr (Or.inl ?_)
        simp only [stepEvent]
        unfold onModelTurn setStatus
        simp
    | sourceEnded srcId =>
        simp only [stepEvent]
        unfold onSourceEnded
        by_cases hr : (st.pending.filter (fun s => s ≠ srcId)).length = 0
        · rw [if_pos hr]
          exact Or.inl rfl
        · rw [if_neg hr]
          exact Or.inl rfl
    | interrupted =>
        simp only [stepEvent]
        unfold stopAllAudio setStatus
        exact Or.inl rfl
    | tick =>
        have hstep : (stepEvent noiseThreshold st Event.tick).1 = boredomTick st := rfl
        rw [hstep]
        unfold boredomTick
        by_cases hi : st.status = Status.idle
        · refine Or.inr (Or.inr ⟨rfl, hi, ?_⟩)
          rw [if_pos hi]
        · rw [if_neg hi]
          exact Or.inl rfl
    | close =>
        simp only [stepEvent]
        unfold setStatus
        exact Or.inl rfl

/-- Witness for `c10_boredom_invariant`: a tick in an idle state with
boredom 50 yields the capped increment `min 100 51`. -/
theorem c10_boredom_invariant_witness :
    (boredomTick ⟨Status.idle, [], 0, 0, 50⟩).boredom = min 100 (50 + 1) :=
  (c10_boredom_invariant 1).2.1 ⟨Status.idle, [], 0, 0, 50⟩ rfl

/-! Section: expression resolution (src/index.tsx lines 203-229, 108-130, 163-201)

`EmoFace` resolves an expression name to an (eye, mouth) base pair via
the custom-mood registry; `EmoEye` / `EmoMouth` then dispatch the base
name over a switch whose unmatched names (including `neutral` itself,
which has no case) keep the initial default geometry.  The registry is
modelled as an association list (a JS object keyed by mood name);
geometry numbers are taken from the first variant's switches. -/

def baseMoods : List String :=
  ["neutral", "happy", "surprised", "angry", "curious", "sleepy", "wink", "skeptical",
   "sad", "excited", "thinking", "annoyed", "thoughtful", "yawn", "distracted"]

structure CustomExpression where
  name : String
  eyeBase : String
  mouthBase : String
  deriving DecidableEq

/-- Component `EmoFace`, lines 204-206: `const isCustom = customMap[expression]`;
eye/mouth bases come from the registry entry when present, else the
expression name passes through unchanged. -/
def resolveExpression (customMap : List (String × CustomExpression))
    (expression : String) : String × String :=
  match customMap.lookup expression with
  | some c => (c.eyeBase, c.mouthBase)
  | none => (expression, expression)

structure EyeGeom where
  width : ℚ
  height : ℚ
  borderRadius : String
  rotate : ℚ
  scaleY : ℚ
  translateY : ℚ
  deriving DecidableEq

/-- Initial eye geometry (src/index.tsx line 108), not blinking. -/
def defaultEyeGeom : EyeGeom := ⟨72, 72, "22px", 0, 1, 0⟩

/-- The `EmoEye` expression switch (src/index.tsx lines 115-130): a
name matching no case — `neutral` included — keeps the defaults. -/
def eyeSwitch (isLeft : Bool) (e : String) : EyeGeom :=
  if e = "happy" then
    { defaultEyeGeom with rotate := (if isLeft then 15 else -15), borderRadius := "40px 40px 18px 18px", translateY := -6 }
  else if e = "surprised" then
    { defaultEyeGeom with width := 82, height := 82, borderRadius := "50%" }
  else if e = "angry" then
    { defaultEyeGeom with rotate := (if isLeft then -25 else 25), height := 40, borderRadius := "10px 10px 45px 45px" }
  else if e = "sleepy" then
    { defaultEyeGeom with scaleY := 22/100, height := 28, borderRadius := "50%" }
  else if e = "curious" then
    { defaultEyeGeom with rotate := (if isLeft then -12 else 10), height := (if isLeft then 60 else 78) }
  else if e = "wink" then
    (if isLeft then { defaultEyeGeom with rotate := 15, borderRadius := "42px 42px 18px 18px" }
     else { defaultEyeGeom with scaleY := 5/100 })
  else if e = "skeptical" then
    { defaultEyeGeom with rotate := (if isLeft then -18 else 0), translateY := (if isLeft then -14 else 0), height := (if isLeft then 78 else 42) }
  else if e = "sad" then
    { defaultEyeGeom with rotate := (if isLeft then -22 else 22), borderRadius := "18px 18px 42px 42px", translateY := 14 }
  else if e = "excited" then
    { defaultEyeGeom with width := 88, height := 62, borderRadius := "28px" }
  else if e = "thinking" then
    { defaultEyeGeom with rotate := (if isLeft then 12 else -12), height := 48, width := 78 }
  else if e = "annoyed" then
    { defaultEyeGeom with height := 38, borderRadius := "12px 12px 42px 42px", rotate := (if isLeft then -12 else 12) }
  else if e = "thoughtful" then
    { defaultEyeGeom with rotate := (if isLeft then -22 else -12), height := (if isLeft then 68 else 58), borderRadius := "45% 45% 22% 22%", translateY := -10 }
  else if e = "yawn" then
    { defaultEyeGeom with scaleY := 28/100, translateY := -12 }
  else if e = "distracted" then
    { defaultEyeGeom with rotate := (if isLeft then 6 else 18), translateY := 6 }
  else defaultEyeGeom

structure MouthGeom where
  width : ℚ
  height : ℚ
  borderRadius : String
  rotate : ℚ
  deriving DecidableEq

/-- Initial mouth geometry (src/index.tsx line 164). -/
def defaultMouthGeom : MouthGeom := ⟨38, 8, "7px", 0⟩

/-- The `EmoMouth` non-speaking expression switch (src/index.tsx lines
173-185): unmatched names — `neutral` included — keep the defaults. -/
def mouthSwitch (e : String) : MouthGeom :=
  if e = "happy" then { defaultMouthGeom with width := 52, height := 16, borderRadius := "0 0 32px 32px" }
  else if e = "surprised" then { defaultMouthGeom with width := 28, height := 28, borderRadius := "50%" }
  else if e = "angry" then { defaultMouthGeom with height := 6, rotate := -6 }
  else if e = "sad" then { defaultMouthGeom with width := 48, height := 13, borderRadius := "28px 28px 0 0" }
  else if e = "skeptical" then { defaultMouthGeom with width := 32, height := 7, rotate := 18 }
  else if e = "excited" then { defaultMouthGeom with width := 65, height := 22, borderRadius := "12px 12px 42px 42px" }
  else if e = "sleepy" then { defaultMouthGeom with width := 18, height := 18, borderRadius := "50%" }
  else if e = "wink" then { defaultMouthGeom with width := 42, height := 12, borderRadius := "0 0 22px 22px", rotate := -6 }
  else if e = "annoyed" then { defaultMouthGeom with width := 32, height := 4 }
  else if e = "thoughtful" then { defaultMouthGeom with width := 18, height := 18, borderRadius := "50%" }
  else if e = "yawn" then { defaultMouthGeom with width := 20, height := 35, borderRadius := "50%" }
  else defaultMouthGeom

theorem eyeSwitch_not_base (isLeft : Bool) (name : String) (h : name ∉ baseMoods) :
    eyeSwitch isLeft name = defaultEyeGeom := by
  simp only [baseMoods, List.mem_cons, List.not_mem_nil, or_false, not_or] at h
  obtain ⟨h1, h2, h3, h4, h5, h6, h7, h8, h9, h10, h11, h12, h13, h14, h15⟩ := h
  unfold eyeSwitch
  rw [if_neg h2, if_neg h3, if_neg h4, if_neg h6, if_neg h5, if_neg h7, if_neg h8,
      if_neg h9, if_neg h10, if_neg h11, if_neg h12, if_neg h13, if_neg h14, if_neg h15]

theorem mouthSwitch_not_base (name : String) (h : name ∉ baseMoods) :
    mouthSwitch name = defaultMouthGeom := by
  simp only [baseMoods, List.mem_cons, List.not_mem_nil, or_false, not_or] at h
  obtain ⟨h1, h2, h3, h4, h5, h6, h7, h8, h9, h10, h11, h12, h13, h14, h15⟩ := h
  unfold mouthSwitch
  rw [if_neg h2, if_neg h3, if_neg h4, if_neg h9, if_neg h8, if_neg h10, if_neg h6,
      if_neg h7, if_neg h12, if_neg h13, if_neg h14]

/-- Claim C6 (as stated, refuted at two concrete inputs): the Mood Lab
accepts any lowercase alphanumeric name, so the registry can shadow a
base mood — with `happy` registered as (sad, sad), resolving the base
name `happy` returns the registered pair, not `(happy, happy)`; and an
unregistered, non-base name such as `zigzag` resolves to
`(zigzag, zigzag)`, not to the literal pair `(neutral, neutral)` (the
fallback to neutral happens at the rendering switch, not in the
resolved names). -/
theorem c6_expression_resolution_counterexample :
    "happy" ∈ baseMoods ∧
    resolveExpression [("happy", ⟨"happy", "sad", "sad"⟩)] "happy" = ("sad", "sad") ∧
    ¬(resolveExpression [("happy", ⟨"happy", "sad", "sad"⟩)] "happy" = ("happy", "happy")) ∧
    resolveExpression [] "zigzag" = ("zigzag", "zigzag") ∧
    ¬(resolveExpression [] "zigzag" = ("neutral", "neutral")) := by
  refine ⟨by decide, rfl, by decide, rfl, by decide⟩

/-- Claim C6 (amended): a base-mood name not shadowed by the registry
resolves to (name, name); a name present in the registry resolves to
its registered (eyeBase, mouthBase) pair (the registry takes
precedence even over base names); an unregistered, non-base name
resolves to (name, name), and both components then render with
exactly the neutral (default) eye and mouth geometry — so every
expression value yields a defined (eye, mouth) rendering. -/
theorem c6_expression_resolution (customMap : List (String × CustomExpression))
    (name : String) :
    (customMap.lookup name = none → resolveExpression customMap name = (name, name)) ∧
    (∀ c, customMap.lookup name = some c →
      resolveExpression customMap name = (c.eyeBase, c.mouthBase)) ∧
    (name ∉ baseMoods → customMap.lookup name = none →
      (∀ isLeft, eyeSwitch isLeft (resolveExpression customMap name).1 =
        eyeSwitch isLeft "neutral") ∧
      mouthSwitch (resolveExpression customMap name).2 = mouthSwitch "neutral") := by
  refine ⟨?_, ?_, ?_⟩
  · intro hnone
    unfold resolveExpression
    rw [hnone]
  · intro c hsome
    unfold resolveExpression
    rw [hsome]
  · intro hbase hnone
    have hres : resolveExpression customMap name = (name, name) := by
      unfold resolveExpression
      rw [hnone]
    rw [hres]
    refine ⟨fun isLeft => ?_, ?_⟩
    · rw [eyeSwitch_not_base isLeft name hbase]
      rfl
    · rw [mouthSwitch_not_base name hbase]
      rfl

/-- Witness for `c6_expression_resolution`: the unregistered non-base
name `zigzag` renders with the neutral default geometry. -/
theorem c6_expression_resolution_witness :
    (([] : List (String × CustomExpression)).lookup "zigzag" = none →
      resolveExpression [] "zigzag" = ("zigzag", "zigzag")) ∧
    (∀ c, ([] : List (String × CustomExpression)).lookup "zigzag" = some c →
      resolveExpression [] "zigzag" = (c.eyeBase, c.mouthBase)) ∧
    ("zigzag" ∉ baseMoods → ([] : List (String × CustomExpression)).lookup "zigzag" = none →
      (∀ isLeft, eyeSwitch isLeft (resolveExpression [] "zigzag").1 =
        eyeSwitch isLeft "neutral") ∧
      mouthSwitch (resolveExpression [] "zigzag").2 = mouthSwitch "neutral") :=
  c6_expression_resolution [] "zigzag"

/-! Section: tool-call dispatcher (src/index.tsx lines 1517-1555 / 445-457)

The `onmessage` toolCall loop of the second variant.  Each invocation
carries the data the branch's local side effect depends on:
`execute_javascript` carries the outcome of `new Function(code)()` —
`Except.error msg` when the call throws (caught, answered with
`"Error: " ++ msg`), `Except.ok (some s)` when it returns a value
rendered by `String(...)`, `Except.ok none` when it returns undefined;
`toggle_vision` carries the requested mode and, for camera/screen, the
message produced by `startVision`.  Tool names outside the catalog
fall through to the generic `"ok"` acknowledgment at the bottom of the
loop body (line 1554). -/

inductive VisionMode
  | camera
  | screen
  | off
  deriving DecidableEq

inductive ToolName
  | set_expression (expr : String)
  | set_sticker
  | display_thought
  | execute_javascript (outcome : Except String (Option String))
  | update_face_css (css : String)
  | toggle_vision (mode : VisionMode) (visionMsg : String)
  | unknown (name : String)

structure ToolCall where
  id : String
  tool : ToolName

structure ToolResponse where
  id : String
  result : String
  deriving DecidableEq

/-- The `result` payload each branch sends back via
`sendToolResponse` (src/index.tsx lines 1529-1554). -/
def toolResult : ToolName → String
  | ToolName.set_expression _ => "ok"
  | ToolName.set_sticker => "ok"
  | ToolName.display_thought => "ok"
  | ToolName.execute_javascript (Except.ok (some v)) => v
  | ToolName.execute_javascript (Except.ok none) => "Executed successfully"
  | ToolName.execute_javascript (Except.error m) => "Error: " ++ m
  | ToolName.update_face_css _ => "CSS Applied"
  | ToolName.toggle_vision VisionMode.off _ => "Vision Off"
  | ToolName.toggle_vision _ msg => msg
  | ToolName.unknown _ => "ok"

/-- The effect of one invocation on the current expression:
`set_expression` stores its argument unconditionally (line 1519); no
other branch touches the expression. -/
def applyTool (expression : String) : ToolName → String
  | ToolName.set_expression e => e
  | _ => expression

/-- The `for (const fc of message.toolCall.functionCalls)` loop:
every iteration sends exactly one response keyed by `fc.id`, in
order, threading the expression state through the side effects. -/
def dispatchToolCalls (expression : String) :
    List ToolCall → String × List ToolResponse
  | [] => (expression, [])
  | fc :: rest =>
      let expr1 := applyTool expression fc.tool
      let tail := dispatchToolCalls expr1 rest
      (tail.1, ⟨fc.id, toolResult fc.tool⟩ :: tail.2)

/-- The third variant's `set_expression` branch (src/index.tsx lines
2375-2378), for contrast: lowercase the argument (JS `toLowerCase`,
ASCII here) and set it only when it is a declared mood name. -/
def setExpressionV3 (moodNames : List String) (expression arg : String) : String :=
  let exp := arg.toLower
  if exp ∈ moodNames then exp else expression

/-- Claim C3: a batch of K invocations produces exactly K responses,
one per invocation in order, each keyed by the invocation's id —
including unknown tool names (acknowledged with "ok") and
`execute_javascript` calls whose code throws (answered with the error
text instead of a success payload). -/
theorem c3_tool_reply_completeness (expression : String) (fcs : List ToolCall) :
    (dispatchToolCalls expression fcs).2 =
      fcs.map (fun fc => ⟨fc.id, toolResult fc.tool⟩) ∧
    ((dispatchToolCalls expression fcs).2).map ToolResponse.id = fcs.map ToolCall.id ∧
    ((dispatchToolCalls expression fcs).2).length = fcs.length ∧
    (∀ name, toolResult (ToolName.unknown name) = "ok") ∧
    (∀ msg, toolResult (ToolName.execute_javascript (Except.error msg)) =
      "Error: " ++ msg) := by
  have hmap : ∀ (fcs : List ToolCall) (expression : String),
      (dispatchToolCalls expression fcs).2 =
        fcs.map (fun fc => ⟨fc.id, toolResult fc.tool⟩) := by
    intro fcs
    induction fcs with
    | nil => intro _; rfl
    | cons fc rest ih =>
        intro expr
        simp only [dispatchToolCalls, List.map_cons]
        rw [ih (applyTool expr fc.tool)]
  refine ⟨hmap fcs expression, ?_, ?_, fun _ => rfl, fun _ => rfl⟩
  · rw [hmap fcs expression, List.map_map]
    rfl
  · rw [hmap fcs expression, List.length_map]

/-- Claim C7 (as stated, refuted at a concrete invocation): the cited
dispatch branch performs no validation — dispatching
`set_expression "zzz"` from current expression `happy` sets the
expression to `zzz`, although `zzz` is neither a base mood nor a
registry key (empty registry), where the claim requires it to be
ignored. -/
theorem c7_set_expression_counterexample :
    (dispatchToolCalls "happy" [⟨"call1", ToolName.set_expression "zzz"⟩]).1 = "zzz" ∧
    "zzz" ∉ baseMoods ∧
    ¬((dispatchToolCalls "happy" [⟨"call1", ToolName.set_expression "zzz"⟩]).1 =
      "happy") := by
  refine ⟨rfl, by decide, by decide⟩

/-- Claim C7 (amended): the cited `set_expression` branches (lines
1519 / 447) set the current Expression to the argument string
unconditionally, with no validation — an unrecognized name is
harmless only because rendering falls back to the neutral default
shape; the validation the claim describes exists in the third
variant's branch (lines 2375-2378), which lowercases the argument and
sets it only if it is a member of base moods ∪ registry keys, leaving
the expression unchanged otherwise. -/
theorem c7_set_expression_validation (expression id arg : String)
    (moodNames : List String) :
    (dispatchToolCalls expression [⟨id, ToolName.set_expression arg⟩]).1 = arg ∧
    (arg.toLower ∈ moodNames → setExpressionV3 moodNames expression arg = arg.toLower) ∧
    (arg.toLower ∉ moodNames → setExpressionV3 moodNames expression arg = expression) := by
  refine ⟨rfl, ?_, ?_⟩
  · intro hmem
    unfold setExpressionV3
    rw [if_pos hmem]
  · intro hmem
    unfold setExpressionV3
    rw [if_neg hmem]

/-- Witness for `c7_set_expression_validation`: argument `happy`
against mood list containing its lowercase form. -/
theorem c7_set_expression_validation_witness :
    (dispatchToolCalls "neutral"
      [⟨"call1", ToolName.set_expression "happy"⟩]).1 = "happy" ∧
    setExpressionV3 ["happy".toLower] "neutral" "happy" = "happy".toLower :=
  ⟨(c7_set_expression_validation "neutral" "call1" "happy" ["happy".toLower]).1,
   (c7_set_expression_validation "neutral" "call1" "happy" ["happy".toLower]).2.1
     (List.mem_singleton.mpr rfl)⟩

end EmoBuddy
